import Mathlib

/-!
Verification development for the pairwise image-stitching pipeline
(Assignment_1: matching.cpp, homography.cpp, warp.cpp, blend.cpp, stitch.cpp).

Modelling conventions:
* C++ `double`/`float` values are modelled by `ℚ` (exact field arithmetic);
  division by zero in `ℚ` is total and returns 0.
* External library routines that the repository calls but does not define
  (std::sqrt, cv::SVD, cv::checkRange, the descriptor distance kernels) are
  taken as parameters of the embedded functions, so every theorem quantifies
  over them.
* `CV_Assert` failures (which raise a cv::Exception in OpenCV) are modelled
  by `Except.error CvError.assertFailed`.
* The mt19937 engine is fully specified by the C++ standard and is embedded
  concretely; `std::uniform_int_distribution` is implementation-defined and
  is modelled after the libstdc++ rejection-sampling scheme, with fuel for
  its rejection loop.
-/

namespace VC

/-- Errors raised by `CV_Assert` style contract checks. -/
inductive CvError where
  | assertFailed
deriving DecidableEq, Repr

/-- A 2D point with rational coordinates, modelling `cv::Point2f`. -/
structure Pt where
  x : ℚ
  y : ℚ
deriving DecidableEq, Repr

def ptZero : Pt := ⟨0, 0⟩

/-- A 3x3 matrix of rationals, modelling a `cv::Mat` homography (CV_64F). -/
structure Mat3 where
  m00 : ℚ
  m01 : ℚ
  m02 : ℚ
  m10 : ℚ
  m11 : ℚ
  m12 : ℚ
  m20 : ℚ
  m21 : ℚ
  m22 : ℚ
deriving DecidableEq, Repr

def idMat3 : Mat3 := ⟨1, 0, 0, 0, 1, 0, 0, 0, 1⟩

def matMul (a b : Mat3) : Mat3 :=
  ⟨a.m00 * b.m00 + a.m01 * b.m10 + a.m02 * b.m20,
   a.m00 * b.m01 + a.m01 * b.m11 + a.m02 * b.m21,
   a.m00 * b.m02 + a.m01 * b.m12 + a.m02 * b.m22,
   a.m10 * b.m00 + a.m11 * b.m10 + a.m12 * b.m20,
   a.m10 * b.m01 + a.m11 * b.m11 + a.m12 * b.m21,
   a.m10 * b.m02 + a.m11 * b.m12 + a.m12 * b.m22,
   a.m20 * b.m00 + a.m21 * b.m10 + a.m22 * b.m20,
   a.m20 * b.m01 + a.m21 * b.m11 + a.m22 * b.m21,
   a.m20 * b.m02 + a.m21 * b.m12 + a.m22 * b.m22⟩

def matDet (a : Mat3) : ℚ :=
  a.m00 * (a.m11 * a.m22 - a.m12 * a.m21)
  - a.m01 * (a.m10 * a.m22 - a.m12 * a.m20)
  + a.m02 * (a.m10 * a.m21 - a.m11 * a.m20)

/-- Inverse via adjugate over the determinant, modelling `cv::Mat::inv()`.
For a singular matrix the rational division by zero yields the zero matrix,
matching the OpenCV LU convention of returning zeros. -/
def matInv (a : Mat3) : Mat3 :=
  let d := matDet a
  ⟨(a.m11 * a.m22 - a.m12 * a.m21) / d,
   (a.m02 * a.m21 - a.m01 * a.m22) / d,
   (a.m01 * a.m12 - a.m02 * a.m11) / d,
   (a.m12 * a.m20 - a.m10 * a.m22) / d,
   (a.m00 * a.m22 - a.m02 * a.m20) / d,
   (a.m02 * a.m10 - a.m00 * a.m12) / d,
   (a.m10 * a.m21 - a.m11 * a.m20) / d,
   (a.m01 * a.m20 - a.m00 * a.m21) / d,
   (a.m00 * a.m11 - a.m01 * a.m10) / d⟩

/-- Apply a homography to a point in homogeneous coordinates,
returning the raw homogeneous triple before projective division. -/
def applyH (h : Mat3) (p : Pt) : ℚ × ℚ × ℚ :=
  (h.m00 * p.x + h.m01 * p.y + h.m02,
   h.m10 * p.x + h.m11 * p.y + h.m12,
   h.m20 * p.x + h.m21 * p.y + h.m22)

/-! ## matching.cpp -/

/-- A match record, modelling `vc::Match` (queryIdx, trainIdx, dist). -/
structure Match where
  queryIdx : ℤ
  trainIdx : ℤ
  dist : ℚ
deriving DecidableEq, Repr

/-- Inner-loop state of `bruteForceMatchKNN`: best and second-best distance
and index.  `none` for a distance models the `+infinity` sentinel of the C++
code, and index -1 models the unset state. -/
structure KnnScan where
  best : Option ℚ
  second : Option ℚ
  bestIdx : ℤ
  secondIdx : ℤ
deriving DecidableEq, Repr

/-- Comparison `d < sentinel` where `none` is the infinity sentinel. -/
def ltSent (d : ℚ) : Option ℚ → Bool
  | none => true
  | some b => decide (d < b)

def knnScanStep (st : KnnScan) (j : ℤ) (d : ℚ) : KnnScan :=
  if ltSent d st.best then
    ⟨some d, st.best, j, st.bestIdx⟩
  else if ltSent d st.second then
    ⟨st.best, some d, st.bestIdx, j⟩
  else st

/-- One query row scan over all train rows, as in the inner loop of
`bruteForceMatchKNN` (matching.cpp lines 81-98). -/
def knnScanRow (dist : α → α → ℚ) (a : α) (d2 : List α) : KnnScan :=
  (List.range d2.length).foldl
    (fun st j => knnScanStep st (Int.ofNat j) (dist a (d2.getD j a)))
    ⟨none, none, -1, -1⟩

/-- `bruteForceMatchKNN` (matching.cpp lines 75-104).  The descriptor
distance kernel (Euclidean or Hamming, selected by `distType`) is passed in
as the parameter `dist`. -/
def bruteForceMatchKNN (dist : α → α → ℚ) (d1 d2 : List α) (k : ℤ) :
    List (Match × Match) :=
  if d1.isEmpty || d2.isEmpty || decide (k < 2) then []
  else
    (List.range d1.length).filterMap (fun i =>
      match d1.get? i with
      | none => none
      | some a =>
        let st := knnScanRow dist a d2
        if 0 ≤ st.bestIdx ∧ 0 ≤ st.secondIdx then
          some (⟨(i : ℤ), st.bestIdx, st.best.getD 0⟩,
                ⟨(i : ℤ), st.secondIdx, st.second.getD 0⟩)
        else none)

/-- `ratioTest` (matching.cpp lines 106-115): drop a pair when the
second-best distance is at most 1e-12, keep the best match when the
distance ratio is strictly below `ratio`. -/
def ratioTest (knn : List (Match × Match)) (ratio : ℚ) : List Match :=
  match knn with
  | [] => []
  | p :: rest =>
    if p.2.dist ≤ 1 / 1000000000000 then ratioTest rest ratio
    else if p.1.dist / p.2.dist < ratio then p.1 :: ratioTest rest ratio
    else ratioTest rest ratio

/-! ## homography.cpp -/

/-- Centroid of a point list (homography.cpp lines 45-47). -/
def hartleyMean (pts : List Pt) : ℚ × ℚ :=
  ((pts.map Pt.x).sum / pts.length, (pts.map Pt.y).sum / pts.length)

/-- Average distance of the points from their centroid
(homography.cpp lines 48-53).  `sqrtF` models `std::sqrt`. -/
def hartleyAvgDist (sqrtF : ℚ → ℚ) (pts : List Pt) : ℚ :=
  let m := hartleyMean pts
  (pts.map (fun p => sqrtF ((p.x - m.1) ^ 2 + (p.y - m.2) ^ 2))).sum / pts.length

/-- The Hartley normalization scale (homography.cpp line 54):
`s = avgDist > 0 ? sqrt(2)/avgDist : 1`. -/
def hartleyScale (sqrtF : ℚ → ℚ) (pts : List Pt) : ℚ :=
  let a := hartleyAvgDist sqrtF pts
  if 0 < a then sqrtF 2 / a else 1

/-- The 3x3 Hartley similarity matrix `T` (homography.cpp line 55). -/
def hartleyT (sqrtF : ℚ → ℚ) (pts : List Pt) : Mat3 :=
  let m := hartleyMean pts
  let s := hartleyScale sqrtF pts
  ⟨s, 0, -s * m.1, 0, s, -s * m.2, 0, 0, 1⟩

/-- The normalized point list produced together with `T`
(homography.cpp lines 56-61). -/
def hartleyApply (sqrtF : ℚ → ℚ) (pts : List Pt) : List Pt :=
  let t := hartleyT sqrtF pts
  pts.map (fun p =>
    let q := applyH t p
    ⟨q.1 / q.2.2, q.2.1 / q.2.2⟩)

/-- The two rows of the DLT system contributed by one correspondence
(homography.cpp lines 13-35). -/
def buildARows (p q : Pt) : List (List ℚ) :=
  [[-p.x, -p.y, -1, 0, 0, 0, p.x * q.x, p.y * q.x, q.x],
   [0, 0, 0, -p.x, -p.y, -1, p.x * q.y, p.y * q.y, q.y]]

/-- The 2n x 9 DLT coefficient matrix `A` (homography.cpp `buildA`). -/
def buildA (srcPts dstPts : List Pt) : List (List ℚ) :=
  ((srcPts.zip dstPts).map (fun pq => buildARows pq.1 pq.2)).flatten

/-- Divide every entry of the matrix by its bottom-right entry
(homography.cpp line 75). -/
def matCanon (h : Mat3) : Mat3 :=
  ⟨h.m00 / h.m22, h.m01 / h.m22, h.m02 / h.m22,
   h.m10 / h.m22, h.m11 / h.m22, h.m12 / h.m22,
   h.m20 / h.m22, h.m21 / h.m22, h.m22 / h.m22⟩

/-- `computeHomographyDLT` (homography.cpp lines 39-77).
`sqrtF` models `std::sqrt` and `svd` models the external
`cv::SVD::compute` step that returns the right singular vector of the
smallest singular value reshaped to 3x3.  The two `CV_Assert` contract
checks are modelled as thrown errors. -/
def computeHomographyDLT (sqrtF : ℚ → ℚ) (svd : List (List ℚ) → Mat3)
    (srcPts dstPts : List Pt) : Except CvError Mat3 :=
  if srcPts.length = dstPts.length then
    if 4 ≤ srcPts.length then
      let tsrc := hartleyT sqrtF srcPts
      let tdst := hartleyT sqrtF dstPts
      let nsrc := hartleyApply sqrtF srcPts
      let ndst := hartleyApply sqrtF dstPts
      let hn := svd (buildA nsrc ndst)
      Except.ok (matCanon (matMul (matMul (matInv tdst) hn) tsrc))
    else Except.error CvError.assertFailed
  else Except.error CvError.assertFailed

/-- Symmetric reprojection error of one correspondence
(homography.cpp lines 79-87). -/
def reprojError (sqrtF : ℚ → ℚ) (h : Mat3) (p q : Pt) : ℚ :=
  let w := applyH h p
  let wx := w.1 / w.2.2
  let wy := w.2.1 / w.2.2
  sqrtF ((wx - q.x) ^ 2 + (wy - q.y) ^ 2)

/-! ### The mt19937 engine (homography.cpp line 98 `std::mt19937 rng(42)`)

The engine parameters are fixed by the C++ standard
(`std::mersenne_twister_engine<uint_fast32_t, 32, 624, 397, 31, ...>`).
Words are natural numbers kept below 2^32. -/

structure MTState where
  xs : List ℕ
  idx : ℕ
deriving Repr

def listSet : List α → ℕ → α → List α
  | [], _, _ => []
  | _ :: t, 0, v => v :: t
  | h :: t, n + 1, v => h :: listSet t n v

def mtSeedTail (prev i : ℕ) : ℕ → List ℕ
  | 0 => []
  | c + 1 =>
    let x := (1812433253 * (prev ^^^ (prev >>> 30)) + i) % 4294967296
    x :: mtSeedTail x (i + 1) c

/-- Seed the engine state (the standard warm-up recurrence). -/
def mtInit (seed : ℕ) : MTState :=
  let x0 := seed % 4294967296
  ⟨x0 :: mtSeedTail x0 1 623, 624⟩

/-- The twist transformation, updating the 624 words in place order. -/
def mtTwist (xs : List ℕ) : List ℕ :=
  (List.range 624).foldl (fun a i =>
    let y := (a.getD i 0 &&& 2147483648) ||| (a.getD ((i + 1) % 624) 0 &&& 2147483647)
    let v := (a.getD ((i + 397) % 624) 0 ^^^ (y >>> 1)) ^^^
             (if y &&& 1 = 1 then 2567483615 else 0)
    listSet a i v) xs

/-- The tempering output function. -/
def mtTemper (y0 : ℕ) : ℕ :=
  let y1 := y0 ^^^ (y0 >>> 11)
  let y2 := y1 ^^^ ((y1 <<< 7) &&& 2636928640)
  let y3 := y2 ^^^ ((y2 <<< 15) &&& 4022730752)
  (y3 ^^^ (y3 >>> 18)) % 4294967296

/-- Draw one 32-bit word from the engine. -/
def mtNext (s : MTState) : ℕ × MTState :=
  let s2 := if 624 ≤ s.idx then MTState.mk (mtTwist s.xs) 0 else s
  (mtTemper (s2.xs.getD s2.idx 0), ⟨s2.xs, s2.idx + 1⟩)

/-- Rejection loop of the libstdc++ `uniform_int_distribution`.
The fuel bounds the (almost surely terminating) rejection loop. -/
def uniformIntLoop (scaling past : ℕ) : ℕ → MTState → ℕ × MTState
  | 0, rng => (0, rng)
  | fuel + 1, rng =>
    let r := mtNext rng
    if past ≤ r.1 then uniformIntLoop scaling past fuel r.2
    else (r.1 / scaling, r.2)

/-- Models `std::uniform_int_distribution<int>(0, n-1)` over mt19937
(implementation-defined; this follows the libstdc++ downscaling scheme
with engine range 2^32 - 1). -/
def uniformInt (n : ℕ) (rng : MTState) : ℕ × MTState :=
  let uerange := (n - 1) + 1
  let scaling := 4294967295 / uerange
  let past := uerange * scaling
  uniformIntLoop scaling past 64 rng

/-- The `while (k < 4)` distinct-index sampling loop with its
`unordered_set` membership test (homography.cpp lines 107-114),
fueled since its termination is probabilistic. -/
def sampleDistinct (n : ℕ) : ℕ → List ℕ → MTState → List ℕ × MTState
  | 0, acc, rng => (acc, rng)
  | fuel + 1, acc, rng =>
    if 4 ≤ acc.length then (acc, rng)
    else
      let r := uniformInt n rng
      if r.1 ∈ acc then sampleDistinct n fuel acc r.2
      else sampleDistinct n fuel (acc ++ [r.1]) r.2

def sample4 (n : ℕ) (rng : MTState) : List ℕ × MTState :=
  sampleDistinct n 256 [] rng

/-- Number of correspondences whose reprojection error under `h` is below
the threshold (homography.cpp lines 118-122). -/
def inlierCount (sqrtF : ℚ → ℚ) (h : Mat3) (srcPts dstPts : List Pt)
    (thresh : ℚ) : ℕ :=
  (srcPts.zip dstPts).countP (fun pq => decide (reprojError sqrtF h pq.1 pq.2 < thresh))

/-- One RANSAC iteration (homography.cpp lines 105-127), threading the
engine state and the best-so-far candidate.  The `.error` branch of the
minimal-sample fit is unreachable in the C++ flow (the sample always has
four points) and leaves the state unchanged. -/
def ransacStep (sqrtF : ℚ → ℚ) (svd : List (List ℚ) → Mat3)
    (srcPts dstPts : List Pt) (thresh : ℚ) (n : ℕ)
    (st : ℤ × Option Mat3 × MTState) : ℤ × Option Mat3 × MTState :=
  let smp := sample4 n st.2.2
  let s := smp.1.map (fun j => srcPts.getD j ptZero)
  let d := smp.1.map (fun j => dstPts.getD j ptZero)
  match computeHomographyDLT sqrtF svd s d with
  | Except.error _ => (st.1, st.2.1, smp.2)
  | Except.ok h =>
    let inl := inlierCount sqrtF h srcPts dstPts thresh
    if st.1 < (inl : ℤ) then ((inl : ℤ), some h, smp.2)
    else (st.1, st.2.1, smp.2)

/-- The full iteration loop, returning the best homography found
(`bestInliers` starts at -1, so the first valid candidate always wins). -/
def ransacBest (sqrtF : ℚ → ℚ) (svd : List (List ℚ) → Mat3)
    (srcPts dstPts : List Pt) (iterations : ℕ) (thresh : ℚ) (n : ℕ)
    (rng0 : MTState) : Option Mat3 :=
  ((List.range iterations).foldl
    (fun st _ => ransacStep sqrtF svd srcPts dstPts thresh n st)
    (-1, none, rng0)).2.1

/-- Keep the list entries whose mask bit is set (homography.cpp line 141). -/
def maskFilter (l : List α) (mask : List Bool) : List α :=
  (l.zip mask).filterMap (fun pb => if pb.2 then some pb.1 else none)

/-- The tail of `ransacHomography` after the iteration loop
(homography.cpp lines 129-146): final mask, then the mandatory refit on
the inliers when at least four exist. -/
def ransacFinish (sqrtF : ℚ → ℚ) (svd : List (List ℚ) → Mat3)
    (srcPts dstPts : List Pt) (thresh : ℚ) (n : ℕ) :
    Option Mat3 → Option Mat3 × List Bool
  | none => (none, List.replicate n false)
  | some bh =>
    let mask := (List.range n).map (fun i =>
      decide (reprojError sqrtF bh (srcPts.getD i ptZero) (dstPts.getD i ptZero) < thresh))
    let sIn := maskFilter srcPts mask
    let dIn := maskFilter dstPts mask
    let h2 :=
      if 4 ≤ sIn.length then
        match computeHomographyDLT sqrtF svd sIn dIn with
        | Except.ok k => k
        | Except.error _ => bh
      else bh
    (some h2, mask)

/-- `ransacHomography` with an explicit seed parameter
(homography.cpp lines 89-147).  Returns the homography (`none` models the
empty `cv::Mat`) together with the inlier mask; the initial
`CV_Assert(srcPts.size() == dstPts.size())` is modelled as a thrown error. -/
def ransacHomographyWithSeed (sqrtF : ℚ → ℚ) (svd : List (List ℚ) → Mat3)
    (seed : ℕ) (srcPts dstPts : List Pt) (iterations : ℕ) (thresh : ℚ) :
    Except CvError (Option Mat3 × List Bool) :=
  if srcPts.length = dstPts.length then
    let n := srcPts.length
    if n < 4 then Except.ok (none, List.replicate n false)
    else
      Except.ok (ransacFinish sqrtF svd srcPts dstPts thresh n
        (ransacBest sqrtF svd srcPts dstPts iterations thresh n (mtInit seed)))
  else Except.error CvError.assertFailed

/-- `ransacHomography` as in the source: the engine seed is the fixed
constant 42 (homography.cpp line 98). -/
def ransacHomography (sqrtF : ℚ → ℚ) (svd : List (List ℚ) → Mat3)
    (srcPts dstPts : List Pt) (iterations : ℕ) (thresh : ℚ) :
    Except CvError (Option Mat3 × List Bool) :=
  ransacHomographyWithSeed sqrtF svd 42 srcPts dstPts iterations thresh

/-- One run of `ransacHomography` in an environment offering entropy
(what `std::random_device` would supply).  The code never consults the
entropy source: the engine is seeded with the constant 42, so the
parameter is ignored by construction. -/
def ransacHomographyRun (_entropy : ℕ) (sqrtF : ℚ → ℚ)
    (svd : List (List ℚ) → Mat3) (srcPts dstPts : List Pt)
    (iterations : ℕ) (thresh : ℚ) :
    Except CvError (Option Mat3 × List Bool) :=
  ransacHomographyWithSeed sqrtF svd 42 srcPts dstPts iterations thresh

/-! ## Image model (dense 8-bit BGR buffers, `CV_8UC3`) -/

/-- One 8-bit BGR pixel; channel values are naturals (valid images keep
them at most 255). -/
structure Pix where
  b : ℕ
  g : ℕ
  r : ℕ
deriving DecidableEq, Repr

/-- An image: width, height, and the pixel at row `y`, column `x`.
Reads outside the rectangle are unspecified junk in C++; the model makes
them whatever the function returns, and all statements only touch
in-bounds coordinates. -/
structure Image where
  w : ℕ
  h : ℕ
  pix : ℕ → ℕ → Pix

/-- A pixel value carried in float arithmetic (`cv::Vec3f`). -/
structure Vec3Q where
  b : ℚ
  g : ℚ
  r : ℚ
deriving DecidableEq, Repr

def vscale (a : ℚ) (v : Vec3Q) : Vec3Q := ⟨a * v.b, a * v.g, a * v.r⟩

def vadd (u v : Vec3Q) : Vec3Q := ⟨u.b + v.b, u.g + v.g, u.r + v.r⟩

/-- Valid 8-bit image: every in-bounds channel value is at most 255. -/
def valid8 (img : Image) : Prop :=
  ∀ y < img.h, ∀ x < img.w,
    (img.pix y x).b ≤ 255 ∧ (img.pix y x).g ≤ 255 ∧ (img.pix y x).r ≤ 255

/-- Extensional equality of images on their common rectangle. -/
def imgEq (a b : Image) : Prop :=
  a.w = b.w ∧ a.h = b.h ∧ ∀ y < a.h, ∀ x < a.w, a.pix y x = b.pix y x

instance (a b : Image) : Decidable (imgEq a b) := by
  unfold imgEq; infer_instance

instance (img : Image) : Decidable (valid8 img) := by
  unfold valid8; infer_instance

/-! ## warp.cpp -/

/-- `inBounds` (warp.cpp lines 7-9) on integer pixel coordinates. -/
def inBoundsI (x y : ℤ) (w h : ℕ) : Bool :=
  decide (0 ≤ x) && decide (x < (w : ℤ)) && decide (0 ≤ y) && decide (y < (h : ℤ))

/-- Fetch a source pixel as float values, zero outside the image
(the `inBounds ? src.at : Vec3b(0,0,0)` pattern of `bilinearAt`). -/
def pixAtI (src : Image) (x y : ℤ) : Vec3Q :=
  if inBoundsI x y src.w src.h then
    let p := src.pix y.toNat x.toNat
    ⟨(p.b : ℚ), (p.g : ℚ), (p.r : ℚ)⟩
  else ⟨0, 0, 0⟩

/-- `bilinearAt` (warp.cpp lines 11-26). -/
def bilinearAt (src : Image) (x y : ℚ) : Vec3Q :=
  let x0 := ⌊x⌋
  let y0 := ⌊y⌋
  let x1 := x0 + 1
  let y1 := y0 + 1
  let ax := x - (x0 : ℚ)
  let ay := y - (y0 : ℚ)
  let c00 := pixAtI src x0 y0
  let c10 := pixAtI src x1 y0
  let c01 := pixAtI src x0 y1
  let c11 := pixAtI src x1 y1
  let c0 := vadd (vscale (1 - ax) c00) (vscale ax c10)
  let c1 := vadd (vscale (1 - ax) c01) (vscale ax c11)
  vadd (vscale (1 - ay) c0) (vscale ay c1)

/-- `cvRound`: round half to even, as OpenCV does. -/
def cvRound (q : ℚ) : ℤ :=
  let f := ⌊q⌋
  let r := q - (f : ℚ)
  if r < 1 / 2 then f
  else if 1 / 2 < r then f + 1
  else if f % 2 = 0 then f else f + 1

/-- `cv::saturate_cast<uchar>`: round, then clamp to [0, 255]. -/
def satCastU8 (q : ℚ) : ℕ :=
  let v := cvRound q
  if v < 0 then 0 else if 255 < v then 255 else v.toNat

def satPix (c : Vec3Q) : Pix := ⟨satCastU8 c.b, satCastU8 c.g, satCastU8 c.r⟩

/-- `warpPerspectiveCustom` (warp.cpp lines 28-48): invert the homography
once, inverse-map every destination pixel, and bilinearly sample when the
source coordinate passes the one-pixel-tolerant bound check; all other
destination pixels stay zero. -/
def warpPerspectiveCustom (src : Image) (hmg : Mat3) (outW outH : ℕ) : Image :=
  let hinv := matInv hmg
  { w := outW, h := outH,
    pix := fun y x =>
      if y < outH ∧ x < outW then
        let q := applyH hinv ⟨(x : ℚ), (y : ℚ)⟩
        let sx := q.1 / q.2.2
        let sy := q.2.1 / q.2.2
        if -1 ≤ sx ∧ -1 ≤ sy ∧ sx < (src.w : ℚ) ∧ sy < (src.h : ℚ) then
          satPix (bilinearAt src sx sy)
        else ⟨0, 0, 0⟩
      else ⟨0, 0, 0⟩ }

/-! ## blend.cpp -/

/-- `blendOverlay` (blend.cpp lines 5-15).  The mask argument is `none`
for an empty `cv::Mat` mask; a nonzero mask entry selects the top pixel
(`topImg.copyTo(out, mask)`), otherwise the cloned base pixel remains. -/
def blendOverlay (baseImg topImg : Image) (mask : Option (ℕ → ℕ → ℕ)) :
    Except CvError Image :=
  if baseImg.w = topImg.w ∧ baseImg.h = topImg.h then
    Except.ok (match mask with
      | some m =>
        { w := baseImg.w, h := baseImg.h,
          pix := fun y x => if m y x ≠ 0 then topImg.pix y x else baseImg.pix y x }
      | none => topImg)
  else Except.error CvError.assertFailed

/-! ## stitch.cpp -/

/-- Count the set entries of an inlier mask (stitch.cpp lines 240-241). -/
def maskCount (mask : List Bool) : ℕ := mask.count true

/-- A RANSAC result is usable when it is nonempty and passes the
finiteness check; `fin` models `cv::checkRange` (external). -/
def validH (fin : Mat3 → Bool) : Option Mat3 → Bool
  | none => false
  | some m => fin m

/-- The direction choice of stitch.cpp line 242:
`use_n2p = in_n2p >= in_p2n`. -/
def stitchUseN2p (maskP2n maskN2p : List Bool) : Bool :=
  decide (maskCount maskP2n ≤ maskCount maskN2p)

/-- The directional decision of stitch.cpp lines 236-245.  Returns `none`
when the composition step must leave the panorama untouched (both results
unusable, or the chosen new-to-panorama map empty/non-finite), else the
new-to-panorama homography to warp with. -/
def stitchSelectH (fin : Mat3 → Bool) (hP2n hN2p : Option Mat3)
    (maskP2n maskN2p : List Bool) : Option Mat3 :=
  if !validH fin hP2n && !validH fin hN2p then none
  else
    let chosen := if stitchUseN2p maskP2n maskN2p then hN2p else hP2n.map matInv
    match chosen with
    | none => none
    | some h => if fin h then some h else none

/-- The panorama after one composition step, abstracting everything after
the direction decision (canvas growth, warp, blend) into the continuation
`contin`: when the decision aborts, the panorama is returned exactly as it
stood (the early `return pano` of lines 236 and 245). -/
def stitchPairOutcome (pano : Image) (contin : Mat3 → Image)
    (fin : Mat3 → Bool) (hP2n hN2p : Option Mat3)
    (maskP2n maskN2p : List Bool) : Image :=
  match stitchSelectH fin hP2n hN2p maskP2n maskN2p with
  | none => pano
  | some h => contin h

/-- OpenCV `BGR2GRAY` luminance on 8-bit pixels (fixed-point
coefficients 1868/9617/4899 with shift 14, as in cv::cvtColor). -/
def grayPix (p : Pix) : ℕ :=
  (1868 * p.b + 9617 * p.g + 4899 * p.r + 8192) / 16384

/-- The auto-crop mask (stitch.cpp lines 428-429):
`threshold(gray, mask, 1, 255, THRESH_BINARY)` keeps a pixel only when its
luminance is strictly greater than 1. -/
def cropMask (img : Image) (y x : ℕ) : Bool :=
  decide (1 < grayPix (img.pix y x))

/-- The coordinates found by `findNonZero` on the crop mask, as
(row, column) pairs. -/
def cropPts (img : Image) : List (ℕ × ℕ) :=
  (List.range img.h).flatMap (fun y =>
    (List.range img.w).filterMap (fun x =>
      if cropMask img y x then some (y, x) else none))

def listMin (a : ℕ) (l : List ℕ) : ℕ := l.foldl min a

def listMax (a : ℕ) (l : List ℕ) : ℕ := l.foldl max a

def cropMinY (img : Image) : ℕ :=
  match cropPts img with
  | [] => 0
  | p :: ps => listMin p.1 (ps.map Prod.fst)

def cropMaxY (img : Image) : ℕ :=
  match cropPts img with
  | [] => 0
  | p :: ps => listMax p.1 (ps.map Prod.fst)

def cropMinX (img : Image) : ℕ :=
  match cropPts img with
  | [] => 0
  | p :: ps => listMin p.2 (ps.map Prod.snd)

def cropMaxX (img : Image) : ℕ :=
  match cropPts img with
  | [] => 0
  | p :: ps => listMax p.2 (ps.map Prod.snd)

/-- The auto-crop stage of `stitchImages` (stitch.cpp lines 426-434):
crop the final canvas to the `cv::boundingRect` of the thresholded
luminance mask; when the mask has no set pixel the canvas is returned
unchanged. -/
def autoCrop (img : Image) : Image :=
  if (cropPts img).isEmpty then img
  else
    { w := cropMaxX img - cropMinX img + 1,
      h := cropMaxY img - cropMinY img + 1,
      pix := fun y x => img.pix (y + cropMinY img) (x + cropMinX img) }

/-- Modelled from the spec: the crop of the canvas to the bounding box of
all nonzero-luminance pixels (section 8 item 7 and section 4.5 of the
spec), used only to compare the specified crop with the implemented one.
It differs from `autoCrop` in the mask predicate: luminance nonzero
instead of luminance strictly greater than 1. -/
def specCropPts (img : Image) : List (ℕ × ℕ) :=
  (List.range img.h).flatMap (fun y =>
    (List.range img.w).filterMap (fun x =>
      if grayPix (img.pix y x) ≠ 0 then some (y, x) else none))

/-- Modelled from the spec: bounding-box crop over `specCropPts`. -/
def specCropNonzero (img : Image) : Image :=
  match specCropPts img with
  | [] => img
  | p :: ps =>
    let minY := listMin p.1 (ps.map Prod.fst)
    let maxY := listMax p.1 (ps.map Prod.fst)
    let minX := listMin p.2 (ps.map Prod.snd)
    let maxX := listMax p.2 (ps.map Prod.snd)
    { w := maxX - minX + 1, h := maxY - minY + 1,
      pix := fun y x => img.pix (y + minY) (x + minX) }

/-! ## Concrete objects used to evaluate the development on small inputs -/

/-- A finiteness check that accepts everything (a concrete stand-in for
`cv::checkRange` on well-behaved matrices). -/
def finTrue : Mat3 → Bool := fun _ => true

/-- A trivial stand-in for the external SVD null-vector extractor. -/
def svdTriv : List (List ℚ) → Mat3 := fun _ => idMat3

/-- A 2x2 test image. -/
def exImgA : Image := ⟨2, 2, fun y x => ⟨40 + y, 41 + x, 42⟩⟩

/-- Another 2x2 test image. -/
def exImgB : Image := ⟨2, 2, fun y x => ⟨10, 20 + y, 30 + x⟩⟩

/-- A mask that is nonzero exactly on the left column. -/
def exMaskHalf : ℕ → ℕ → ℕ := fun _ x => if x = 0 then 255 else 0

/-- A 2x1 canvas whose left pixel has luminance exactly 1 and whose right
pixel has luminance 5. -/
def exPano : Image := ⟨2, 1, fun _ x => if x = 0 then ⟨1, 1, 1⟩ else ⟨5, 5, 5⟩⟩

/-- A constant composition continuation. -/
def exContin : Mat3 → Image := fun _ => exImgB

/-- Four coincident source points. -/
def exPts4 : List Pt := [⟨1, 2⟩, ⟨1, 2⟩, ⟨1, 2⟩, ⟨1, 2⟩]

/-- Four spread destination points. -/
def exDst4 : List Pt := [⟨0, 0⟩, ⟨3, 0⟩, ⟨0, 3⟩, ⟨3, 3⟩]

/-- Three points (below the minimum correspondence count). -/
def exPts3 : List Pt := [⟨0, 0⟩, ⟨1, 0⟩, ⟨0, 1⟩]

/-! ## Theorems -/

/-- The ratio test is exactly a filter for pairs whose second-best distance
exceeds 1e-12 and whose distance ratio is strictly below the threshold,
projected to the best match. -/
theorem ratioTest_filter_eq (knn : List (Match × Match)) (ratio : ℚ) :
    ratioTest knn ratio =
      (knn.filter (fun p =>
        decide ((1 : ℚ) / 1000000000000 < p.2.dist) &&
        decide (p.1.dist / p.2.dist < ratio))).map Prod.fst := by
  induction knn with
  | nil => rfl
  | cons p rest ih =>
    by_cases h1 : p.2.dist ≤ 1 / 1000000000000
    · have hp : (decide ((1 : ℚ) / 1000000000000 < p.2.dist) &&
          decide (p.1.dist / p.2.dist < ratio)) = false := by
        rw [decide_eq_false (not_lt.mpr h1), Bool.false_and]
      simp only [ratioTest, List.filter_cons, hp, if_pos h1, ih]
      simp
    · have h1p : (1 : ℚ) / 1000000000000 < p.2.dist := not_le.mp h1
      by_cases h2 : p.1.dist / p.2.dist < ratio
      · have hp : (decide ((1 : ℚ) / 1000000000000 < p.2.dist) &&
            decide (p.1.dist / p.2.dist < ratio)) = true := by
          rw [decide_eq_true h1p, decide_eq_true h2, Bool.and_self]
        simp only [ratioTest, List.filter_cons, hp, ih]
        rw [if_neg h1, if_pos h2]
        simp
      · have hp : (decide ((1 : ℚ) / 1000000000000 < p.2.dist) &&
            decide (p.1.dist / p.2.dist < ratio)) = false := by
          rw [decide_eq_false h2, Bool.and_false]
        simp only [ratioTest, List.filter_cons, hp, ih]
        rw [if_neg h1, if_neg h2]
        simp

/-- Claim C4: ratioTest keeps a match iff best.dist / secondBest.dist is
strictly below the ratio and the second-best distance is not numerically
close to zero (above 1e-12); the boundary pair with distances 3.0 and 4.0
is rejected at ratio 0.75, while with second-best 4.01 it is kept. -/
theorem ratioTest_strict_gate :
    (∀ (knn : List (Match × Match)) (ratio : ℚ),
      ratioTest knn ratio =
        (knn.filter (fun p =>
          decide ((1 : ℚ) / 1000000000000 < p.2.dist) &&
          decide (p.1.dist / p.2.dist < ratio))).map Prod.fst) ∧
    ratioTest [(⟨0, 0, 3⟩, ⟨0, 1, 4⟩)] (3 / 4) = [] ∧
    ratioTest [(⟨0, 0, 3⟩, ⟨0, 1, 401 / 100⟩)] (3 / 4) = [⟨0, 0, 3⟩] :=
  ⟨ratioTest_filter_eq, by norm_num [ratioTest], by norm_num [ratioTest]⟩

/-- Claim C5: the RANSAC estimator is deterministic by construction: a run
ignores any ambient entropy because the engine seed is the fixed constant
42, so two runs on identical inputs coincide, and both equal the
seed-42 instantiation. -/
theorem ransac_fixed_seed_deterministic (e1 e2 : ℕ) (sqrtF : ℚ → ℚ)
    (svd : List (List ℚ) → Mat3) (srcPts dstPts : List Pt)
    (iterations : ℕ) (thresh : ℚ) :
    ransacHomographyRun e1 sqrtF svd srcPts dstPts iterations thresh =
      ransacHomographyRun e2 sqrtF svd srcPts dstPts iterations thresh ∧
    ransacHomographyRun e1 sqrtF svd srcPts dstPts iterations thresh =
      ransacHomography sqrtF svd srcPts dstPts iterations thresh ∧
    ransacHomography sqrtF svd srcPts dstPts iterations thresh =
      ransacHomographyWithSeed sqrtF svd 42 srcPts dstPts iterations thresh :=
  ⟨rfl, rfl, rfl⟩

/-- Claim C10: with fewer than two train descriptors no query can obtain a
second-best neighbour, so the knn matcher reports nothing at all. -/
theorem bruteForceMatchKNN_train_lt_two_empty (dist : α → α → ℚ)
    (d1 d2 : List α) (k : ℤ) (h : d2.length < 2) :
    bruteForceMatchKNN dist d1 d2 k = [] := by
  match d2, h with
  | [], _ => simp [bruteForceMatchKNN]
  | [b], _ =>
    unfold bruteForceMatchKNN
    by_cases hg : (d1.isEmpty || ([b] : List α).isEmpty || decide (k < 2)) = true
    · rw [if_pos hg]
    · rw [if_neg hg, List.filterMap_eq_nil_iff]
      intro i _
      cases hget : d1.get? i with
      | none => simp [hget]
      | some a =>
        have hscan : knnScanRow dist a [b] =
            KnnScan.mk (some (dist a b)) none 0 (-1) := rfl
        simp [hget, hscan]

/-- Witness for claim C10: both descriptor sets nonempty, k = 2, a single
train row, and the result is empty. -/
theorem bruteForceMatchKNN_train_lt_two_empty_witness :
    ([(3 : ℚ)] : List ℚ).length < 2 ∧
    bruteForceMatchKNN (fun a b => a * b) [(1 : ℚ), 2] [(3 : ℚ)] 2 = [] :=
  ⟨by decide,
   bruteForceMatchKNN_train_lt_two_empty (fun a b => a * b) [(1 : ℚ), 2]
     [(3 : ℚ)] 2 (by decide)⟩

/-- Claim C2: for equal-length point lists, ransacHomography produces an
inlier mask with exactly one entry per correspondence, and with fewer than
four correspondences it returns the empty homography together with the
all-false mask. -/
theorem ransac_mask_length (sqrtF : ℚ → ℚ) (svd : List (List ℚ) → Mat3)
    (srcPts dstPts : List Pt) (iterations : ℕ) (thresh : ℚ)
    (hlen : srcPts.length = dstPts.length) :
    ∃ hm mask,
      ransacHomography sqrtF svd srcPts dstPts iterations thresh =
        Except.ok (hm, mask) ∧
      mask.length = srcPts.length ∧
      (srcPts.length < 4 →
        hm = none ∧ mask = List.replicate srcPts.length false) := by
  simp only [ransacHomography, ransacHomographyWithSeed]
  rw [if_pos hlen]
  by_cases h4 : srcPts.length < 4
  · rw [if_pos h4]
    exact ⟨none, List.replicate srcPts.length false, rfl, by simp,
      fun _ => ⟨rfl, rfl⟩⟩
  · rw [if_neg h4]
    cases hb : ransacBest sqrtF svd srcPts dstPts iterations thresh
        srcPts.length (mtInit 42) with
    | none =>
      exact ⟨none, List.replicate srcPts.length false,
        rfl, by simp, fun hc => absurd hc h4⟩
    | some bh =>
      refine ⟨(ransacFinish sqrtF svd srcPts dstPts thresh srcPts.length (some bh)).1,
        (ransacFinish sqrtF svd srcPts dstPts thresh srcPts.length (some bh)).2,
        rfl, ?_, fun hc => absurd hc h4⟩
      simp [ransacFinish]

/-- Witness for claim C2: three equal points against three points. -/
theorem ransac_mask_length_witness :
    exPts3.length = exPts3.length ∧
    ∃ hm mask,
      ransacHomography id svdTriv exPts3 exPts3 500 3 = Except.ok (hm, mask) ∧
      mask.length = exPts3.length ∧
      (exPts3.length < 4 → hm = none ∧ mask = List.replicate exPts3.length false) :=
  ⟨rfl, ransac_mask_length id svdTriv exPts3 exPts3 500 3 rfl⟩

/-- Counterexample to claim C3: on three correspondences
`computeHomographyDLT` raises the `CV_Assert` contract error — it throws,
and returns no homography value at all. -/
theorem computeDLT_three_points_asserts :
    computeHomographyDLT id svdTriv exPts3 exPts3 =
      Except.error CvError.assertFailed ∧
    ¬ ∃ m, computeHomographyDLT id svdTriv exPts3 exPts3 = Except.ok m := by
  have h : computeHomographyDLT id svdTriv exPts3 exPts3 =
      Except.error CvError.assertFailed := rfl
  refine ⟨h, ?_⟩
  rintro ⟨m, hm⟩
  rw [h] at hm
  exact Except.noConfusion hm

/-- Claim C3 amended: with fewer than four correspondences the failure is
signaled non-throwing by the robust wrapper — `ransacHomography` returns
the empty homography and the all-false mask — whereas `computeHomographyDLT`
itself enforces its precondition with a thrown assertion rather than an
empty return. -/
theorem insufficient_points_handling (sqrtF : ℚ → ℚ)
    (svd : List (List ℚ) → Mat3) (srcPts dstPts : List Pt)
    (iterations : ℕ) (thresh : ℚ)
    (hlen : srcPts.length = dstPts.length) (h4 : srcPts.length < 4) :
    ransacHomography sqrtF svd srcPts dstPts iterations thresh =
      Except.ok (none, List.replicate srcPts.length false) ∧
    computeHomographyDLT sqrtF svd srcPts dstPts =
      Except.error CvError.assertFailed := by
  constructor
  · simp only [ransacHomography, ransacHomographyWithSeed]
    rw [if_pos hlen, if_pos h4]
  · simp only [computeHomographyDLT]
    rw [if_pos hlen, if_neg (by omega : ¬ 4 ≤ srcPts.length)]

/-- Witness for the amended claim C3, at three concrete correspondences. -/
theorem insufficient_points_handling_witness :
    exPts3.length = exPts3.length ∧ exPts3.length < 4 ∧
    (ransacHomography id svdTriv exPts3 exPts3 1000 3 =
       Except.ok (none, List.replicate exPts3.length false) ∧
     computeHomographyDLT id svdTriv exPts3 exPts3 =
       Except.error CvError.assertFailed) :=
  ⟨rfl, by decide,
   insufficient_points_handling id svdTriv exPts3 exPts3 1000 3 rfl (by decide)⟩

/-- Claim C8: overlay blending returns the top pixel wherever the mask is
nonzero and the base pixel elsewhere, and degenerates to a full copy of
top when the mask is empty. -/
theorem blendOverlay_select (baseImg topImg : Image) (m : ℕ → ℕ → ℕ)
    (hw : baseImg.w = topImg.w) (hh : baseImg.h = topImg.h) :
    (∃ out, blendOverlay baseImg topImg (some m) = Except.ok out ∧
      out.w = baseImg.w ∧ out.h = baseImg.h ∧
      ∀ y x, out.pix y x =
        if m y x ≠ 0 then topImg.pix y x else baseImg.pix y x) ∧
    blendOverlay baseImg topImg none = Except.ok topImg := by
  constructor
  · refine ⟨Image.mk baseImg.w baseImg.h
      (fun y x => if m y x ≠ 0 then topImg.pix y x else baseImg.pix y x),
      ?_, rfl, rfl, fun y x => rfl⟩
    simp only [blendOverlay]
    rw [if_pos ⟨hw, hh⟩]
  · simp only [blendOverlay]
    rw [if_pos ⟨hw, hh⟩]

/-- Witness for claim C8: two concrete 2x2 images and the left-column
mask. -/
theorem blendOverlay_select_witness :
    exImgA.w = exImgB.w ∧ exImgA.h = exImgB.h ∧
    ((∃ out, blendOverlay exImgA exImgB (some exMaskHalf) = Except.ok out ∧
       out.w = exImgA.w ∧ out.h = exImgA.h ∧
       ∀ y x, out.pix y x =
         if exMaskHalf y x ≠ 0 then exImgB.pix y x else exImgA.pix y x) ∧
     blendOverlay exImgA exImgB none = Except.ok exImgB) :=
  ⟨rfl, rfl, blendOverlay_select exImgA exImgB exMaskHalf rfl rfl⟩

/-- Claim C1: if both directional RANSAC results are unusable (empty or
non-finite) the composition step returns the panorama exactly as it stood;
otherwise the direction with the larger inlier count is selected with ties
resolved toward new-to-panorama (the comparison is not strict), and when
the panorama-to-new direction wins its homography is inverted to obtain
the new-to-panorama warp map. -/
theorem stitch_direction_choice (pano : Image) (contin : Mat3 → Image)
    (fin : Mat3 → Bool) (hP2n hN2p : Option Mat3) (mP mN : List Bool) :
    ((validH fin hP2n = false ∧ validH fin hN2p = false) →
      stitchPairOutcome pano contin fin hP2n hN2p mP mN = pano) ∧
    ((validH fin hP2n || validH fin hN2p) = true →
      (maskCount mP ≤ maskCount mN →
        ∀ m, hN2p = some m →
          stitchSelectH fin hP2n hN2p mP mN =
            (if fin m = true then some m else none)) ∧
      (maskCount mN < maskCount mP →
        ∀ m, hP2n = some m →
          stitchSelectH fin hP2n hN2p mP mN =
            (if fin (matInv m) = true then some (matInv m) else none))) := by
  constructor
  · rintro ⟨h1, h2⟩
    simp [stitchPairOutcome, stitchSelectH, h1, h2]
  · intro hv
    have hguard : (!validH fin hP2n && !validH fin hN2p) = false := by
      cases hp : validH fin hP2n <;> cases hn : validH fin hN2p <;> simp_all
    constructor
    · intro hle m heq
      have huse : stitchUseN2p mP mN = true := decide_eq_true hle
      simp only [stitchSelectH]
      rw [hguard, huse, heq]
      simp
    · intro hlt m heq
      have huse : stitchUseN2p mP mN = false :=
        decide_eq_false (not_le.mpr hlt)
      simp only [stitchSelectH]
      rw [hguard, huse, heq]
      simp

/-- Witness for claim C1: the abort branch on two empty results, the tied
branch selecting new-to-panorama, and the panorama-to-new branch applying
the matrix inverse. -/
theorem stitch_direction_choice_witness :
    (validH finTrue (none : Option Mat3) = false ∧
     validH finTrue (none : Option Mat3) = false) ∧
    stitchPairOutcome exPano exContin finTrue none none [] [] = exPano ∧
    stitchSelectH finTrue (some idMat3) (some idMat3) [true] [true] =
      (if finTrue idMat3 = true then some idMat3 else none) ∧
    stitchSelectH finTrue (some idMat3) none [true] [] =
      (if finTrue (matInv idMat3) = true then some (matInv idMat3) else none) := by
  refine ⟨⟨rfl, rfl⟩, ?_, ?_, ?_⟩
  · exact (stitch_direction_choice exPano exContin finTrue none none
      [] []).1 ⟨rfl, rfl⟩
  · exact ((stitch_direction_choice exPano exContin finTrue (some idMat3)
      (some idMat3) [true] [true]).2 rfl).1 (by decide) idMat3 rfl
  · exact ((stitch_direction_choice exPano exContin finTrue (some idMat3)
      none [true] []).2 rfl).2 (by decide) idMat3 rfl

/-- With all points equal, the Hartley normalization average distance is
zero and the scale falls back to 1 instead of dividing by zero. -/
theorem hartley_const_scale (sqrtF : ℚ → ℚ) (c : Pt) (pts : List Pt)
    (hs0 : sqrtF 0 = 0) (hne : pts ≠ []) (hall : ∀ p ∈ pts, p = c) :
    hartleyScale sqrtF pts = 1 := by
  have hrep : pts = List.replicate pts.length c := by
    rw [List.eq_replicate_iff]; exact ⟨rfl, hall⟩
  have hl : pts.length ≠ 0 := fun h => hne (List.length_eq_zero.mp h)
  have hlq : (pts.length : ℚ) ≠ 0 := Nat.cast_ne_zero.mpr hl
  have hmean : hartleyMean pts = (c.x, c.y) := by
    unfold hartleyMean
    conv_lhs => rw [hrep]
    simp only [List.map_replicate, List.sum_replicate, nsmul_eq_mul,
      List.length_replicate, Prod.mk.injEq]
    constructor <;> field_simp
  have havg : hartleyAvgDist sqrtF pts = 0 := by
    unfold hartleyAvgDist
    rw [hmean]
    conv_lhs => rw [hrep]
    simp [List.map_replicate, List.sum_replicate, sub_self, hs0]
  unfold hartleyScale
  rw [havg]
  norm_num

/-- Claim C9: for a source point set whose points all coincide (zero
average distance from the centroid) the normalization scale falls back
to 1, and with at least four such correspondences `computeHomographyDLT`
is total and returns a 3x3 matrix. -/
theorem dlt_degenerate_normalization_total (sqrtF : ℚ → ℚ)
    (svd : List (List ℚ) → Mat3) (c : Pt) (srcPts dstPts : List Pt)
    (hs0 : sqrtF 0 = 0) (hall : ∀ p ∈ srcPts, p = c)
    (h4 : 4 ≤ srcPts.length) (hlen : srcPts.length = dstPts.length) :
    hartleyScale sqrtF srcPts = 1 ∧
    ∃ m, computeHomographyDLT sqrtF svd srcPts dstPts = Except.ok m := by
  have hne : srcPts ≠ [] := by
    intro h
    rw [h] at h4
    simp at h4
  refine ⟨hartley_const_scale sqrtF c srcPts hs0 hne hall, ?_⟩
  have hok : computeHomographyDLT sqrtF svd srcPts dstPts =
      Except.ok (matCanon (matMul (matMul (matInv (hartleyT sqrtF dstPts))
        (svd (buildA (hartleyApply sqrtF srcPts) (hartleyApply sqrtF dstPts))))
        (hartleyT sqrtF srcPts))) := by
    simp only [computeHomographyDLT]
    rw [if_pos hlen, if_pos h4]
  exact ⟨_, hok⟩

/-- Witness for claim C9: four coincident source points paired with four
spread destination points. -/
theorem dlt_degenerate_normalization_total_witness :
    id (0 : ℚ) = 0 ∧ (∀ p ∈ exPts4, p = Pt.mk 1 2) ∧
    4 ≤ exPts4.length ∧ exPts4.length = exDst4.length ∧
    (hartleyScale id exPts4 = 1 ∧
     ∃ m, computeHomographyDLT id svdTriv exPts4 exDst4 = Except.ok m) :=
  ⟨rfl, by decide, by decide, rfl,
   dlt_degenerate_normalization_total id svdTriv ⟨1, 2⟩ exPts4 exDst4
     rfl (by decide) (by decide) rfl⟩

theorem vscale_one (v : Vec3Q) : vscale 1 v = v := by
  cases v; simp [vscale]

theorem vscale_zero (v : Vec3Q) : vscale 0 v = Vec3Q.mk 0 0 0 := by
  cases v; simp [vscale]

theorem vadd_zero_right (v : Vec3Q) : vadd v (Vec3Q.mk 0 0 0) = v := by
  cases v; simp [vadd]

theorem cvRound_intCast (n : ℤ) : cvRound (n : ℚ) = n := by
  simp only [cvRound, Int.floor_intCast, sub_self]
  norm_num

theorem satCastU8_natCast (n : ℕ) (hn : n ≤ 255) : satCastU8 (n : ℚ) = n := by
  unfold satCastU8
  have h1 : cvRound ((n : ℕ) : ℚ) = (n : ℤ) := by
    rw [← Int.cast_natCast]
    exact cvRound_intCast n
  rw [h1]
  rw [if_neg (not_lt.mpr (Int.natCast_nonneg n))]
  have h3 : ¬ (255 < (n : ℤ)) := by exact_mod_cast not_lt.mpr hn
  rw [if_neg h3]
  exact Int.toNat_natCast n

/-- Bilinear sampling at integer coordinates inside the image is exact. -/
theorem bilinearAt_int (src : Image) (x y : ℕ) (hx : x < src.w) (hy : y < src.h) :
    bilinearAt src (x : ℚ) (y : ℚ) =
      Vec3Q.mk ((src.pix y x).b : ℚ) ((src.pix y x).g : ℚ) ((src.pix y x).r : ℚ) := by
  have hin : inBoundsI (x : ℤ) (y : ℤ) src.w src.h = true := by
    simp [inBoundsI, hx, hy]
  have hc00 : pixAtI src (x : ℤ) (y : ℤ) =
      Vec3Q.mk ((src.pix y x).b : ℚ) ((src.pix y x).g : ℚ) ((src.pix y x).r : ℚ) := by
    simp [pixAtI, hin, Int.toNat_natCast]
  simp only [bilinearAt, Int.floor_natCast]
  have hax : (x : ℚ) - ((x : ℤ) : ℚ) = 0 := by push_cast; ring
  have hay : (y : ℚ) - ((y : ℤ) : ℚ) = 0 := by push_cast; ring
  rw [hax, hay, sub_zero]
  simp only [vscale_one, vscale_zero, vadd_zero_right]
  exact hc00

/-- Claim C7: warping an 8-bit image under the identity homography into a
canvas of its own size reproduces the input pixel for pixel. -/
theorem warpPerspectiveCustom_identity (img : Image) (hv : valid8 img) :
    (warpPerspectiveCustom img idMat3 img.w img.h).w = img.w ∧
    (warpPerspectiveCustom img idMat3 img.w img.h).h = img.h ∧
    ∀ y, y < img.h → ∀ x, x < img.w →
      (warpPerspectiveCustom img idMat3 img.w img.h).pix y x = img.pix y x := by
  refine ⟨rfl, rfl, fun y hy x hx => ?_⟩
  have hinv : matInv idMat3 = idMat3 := by
    norm_num [matInv, matDet, idMat3]
  simp only [warpPerspectiveCustom]
  rw [hinv]
  rw [if_pos ⟨hy, hx⟩]
  have happ : applyH idMat3 (Pt.mk (x : ℚ) (y : ℚ)) = ((x : ℚ), (y : ℚ), 1) := by
    simp [applyH, idMat3]
  rw [happ]
  simp only []
  rw [div_one, div_one]
  have hbx : (-1 : ℚ) ≤ (x : ℚ) :=
    le_trans (by norm_num) (Nat.cast_nonneg x)
  have hby : (-1 : ℚ) ≤ (y : ℚ) :=
    le_trans (by norm_num) (Nat.cast_nonneg y)
  rw [if_pos ⟨hbx, hby, Nat.cast_lt.mpr hx, Nat.cast_lt.mpr hy⟩]
  rw [bilinearAt_int img x y hx hy]
  obtain ⟨hb, hg, hr⟩ := hv y hy x hx
  simp [satPix, satCastU8_natCast, hb, hg, hr]

/-- Witness for claim C7: a concrete 2x2 image. -/
theorem warpPerspectiveCustom_identity_witness :
    valid8 exImgA ∧
    ((warpPerspectiveCustom exImgA idMat3 exImgA.w exImgA.h).w = exImgA.w ∧
     (warpPerspectiveCustom exImgA idMat3 exImgA.w exImgA.h).h = exImgA.h ∧
     ∀ y, y < exImgA.h → ∀ x, x < exImgA.w →
       (warpPerspectiveCustom exImgA idMat3 exImgA.w exImgA.h).pix y x =
         exImgA.pix y x) :=
  ⟨by decide, warpPerspectiveCustom_identity exImgA (by decide)⟩

theorem listMin_mem (a : ℕ) (l : List ℕ) : listMin a l ∈ a :: l := by
  induction l generalizing a with
  | nil => simp [listMin]
  | cons b t ih =>
    have h : listMin a (b :: t) = listMin (min a b) t := rfl
    rw [h]
    rcases List.mem_cons.mp (ih (min a b)) with h1 | h1
    · rcases min_choice a b with h2 | h2
      · rw [h1, h2]; exact List.mem_cons_self _ _
      · rw [h1, h2]
        exact List.mem_cons_of_mem _ (List.mem_cons_self _ _)
    · exact List.mem_cons_of_mem _ (List.mem_cons_of_mem _ h1)

theorem listMin_le (a : ℕ) (l : List ℕ) :
    listMin a l ≤ a ∧ ∀ b ∈ l, listMin a l ≤ b := by
  induction l generalizing a with
  | nil => exact ⟨le_refl a, by simp⟩
  | cons c t ih =>
    have h : listMin a (c :: t) = listMin (min a c) t := rfl
    obtain ⟨h1, h2⟩ := ih (min a c)
    rw [h]
    refine ⟨le_trans h1 (min_le_left a c), ?_⟩
    intro b hb
    rcases List.mem_cons.mp hb with rfl | hb2
    · exact le_trans h1 (min_le_right a b)
    · exact h2 b hb2

theorem listMax_mem (a : ℕ) (l : List ℕ) : listMax a l ∈ a :: l := by
  induction l generalizing a with
  | nil => simp [listMax]
  | cons b t ih =>
    have h : listMax a (b :: t) = listMax (max a b) t := rfl
    rw [h]
    rcases List.mem_cons.mp (ih (max a b)) with h1 | h1
    · rcases max_choice a b with h2 | h2
      · rw [h1, h2]; exact List.mem_cons_self _ _
      · rw [h1, h2]
        exact List.mem_cons_of_mem _ (List.mem_cons_self _ _)
    · exact List.mem_cons_of_mem _ (List.mem_cons_of_mem _ h1)

theorem le_listMax (a : ℕ) (l : List ℕ) :
    a ≤ listMax a l ∧ ∀ b ∈ l, b ≤ listMax a l := by
  induction l generalizing a with
  | nil => exact ⟨le_refl a, by simp⟩
  | cons c t ih =>
    have h : listMax a (c :: t) = listMax (max a c) t := rfl
    obtain ⟨h1, h2⟩ := ih (max a c)
    rw [h]
    refine ⟨le_trans (le_max_left a c) h1, ?_⟩
    intro b hb
    rcases List.mem_cons.mp hb with rfl | hb2
    · exact le_trans (le_max_right a b) h1
    · exact h2 b hb2

theorem exists_proj_eq_listMin (f : ℕ × ℕ → ℕ) (p : ℕ × ℕ)
    (ps : List (ℕ × ℕ)) :
    ∃ q ∈ p :: ps, f q = listMin (f p) (ps.map f) := by
  rcases List.mem_cons.mp (listMin_mem (f p) (ps.map f)) with h1 | h1
  · exact ⟨p, List.mem_cons_self _ _, h1.symm⟩
  · obtain ⟨q, hq, hq1⟩ := List.mem_map.mp h1
    exact ⟨q, List.mem_cons_of_mem _ hq, hq1⟩

theorem exists_proj_eq_listMax (f : ℕ × ℕ → ℕ) (p : ℕ × ℕ)
    (ps : List (ℕ × ℕ)) :
    ∃ q ∈ p :: ps, f q = listMax (f p) (ps.map f) := by
  rcases List.mem_cons.mp (listMax_mem (f p) (ps.map f)) with h1 | h1
  · exact ⟨p, List.mem_cons_self _ _, h1.symm⟩
  · obtain ⟨q, hq, hq1⟩ := List.mem_map.mp h1
    exact ⟨q, List.mem_cons_of_mem _ hq, hq1⟩

theorem listMin_proj_le (f : ℕ × ℕ → ℕ) (p : ℕ × ℕ) (ps : List (ℕ × ℕ)) :
    ∀ q ∈ p :: ps, listMin (f p) (ps.map f) ≤ f q := by
  intro q hq
  obtain ⟨h1, h2⟩ := listMin_le (f p) (ps.map f)
  rcases List.mem_cons.mp hq with rfl | hq2
  · exact h1
  · exact h2 (f q) (List.mem_map.mpr ⟨q, hq2, rfl⟩)

theorem listMax_proj_ge (f : ℕ × ℕ → ℕ) (p : ℕ × ℕ) (ps : List (ℕ × ℕ)) :
    ∀ q ∈ p :: ps, f q ≤ listMax (f p) (ps.map f) := by
  intro q hq
  obtain ⟨h1, h2⟩ := le_listMax (f p) (ps.map f)
  rcases List.mem_cons.mp hq with rfl | hq2
  · exact h1
  · exact h2 (f q) (List.mem_map.mpr ⟨q, hq2, rfl⟩)

theorem mem_cropPts (img : Image) (q : ℕ × ℕ) :
    q ∈ cropPts img ↔
      q.1 < img.h ∧ q.2 < img.w ∧ cropMask img q.1 q.2 = true := by
  cases q with
  | mk y x =>
    constructor
    · intro hq
      obtain ⟨y2, hy2, hmem⟩ := List.mem_flatMap.mp hq
      obtain ⟨x2, hx2, hfx⟩ := List.mem_filterMap.mp hmem
      by_cases hc : cropMask img y2 x2
      · rw [if_pos hc] at hfx
        obtain ⟨rfl, rfl⟩ : y2 = y ∧ x2 = x := by
          have := Option.some.inj hfx
          exact ⟨congrArg Prod.fst this, congrArg Prod.snd this⟩
        exact ⟨List.mem_range.mp hy2, List.mem_range.mp hx2, hc⟩
      · rw [if_neg hc] at hfx
        exact Option.noConfusion hfx
    · rintro ⟨hy, hx, hc⟩
      exact List.mem_flatMap.mpr ⟨y, List.mem_range.mpr hy,
        List.mem_filterMap.mpr ⟨x, List.mem_range.mpr hx, by rw [if_pos hc]⟩⟩

/-- Counterexample to claim C6: on a 2x1 canvas whose left pixel has
luminance exactly 1 (nonzero) and right pixel luminance 5, the returned
crop is 1 pixel wide while the bounding box of nonzero-luminance pixels
is 2 pixels wide: the code thresholds at luminance strictly greater
than 1, not at nonzero luminance. -/
theorem autoCrop_not_nonzero_bbox :
    ¬ imgEq (autoCrop exPano) (specCropNonzero exPano) ∧
    (autoCrop exPano).w = 1 ∧
    (specCropNonzero exPano).w = 2 ∧
    grayPix (exPano.pix 0 0) = 1 ∧ grayPix (exPano.pix 0 0) ≠ 0 := by
  refine ⟨?_, ?_, ?_, ?_, ?_⟩ <;> decide

/-- Claim C6 amended: the returned panorama is the crop of the final
canvas to the bounding box of all pixels whose luminance is strictly
greater than 1 (the threshold used by the code); when no pixel clears the
threshold the canvas is returned unchanged; consequently each border row
and column of the crop contains a pixel with luminance above 1, so no
border row or column consists entirely of pixels at or below the
threshold. -/
theorem autoCrop_threshold_bbox (img : Image) :
    ((cropPts img).isEmpty = true → autoCrop img = img) ∧
    ((cropPts img).isEmpty = false →
      (autoCrop img).w = cropMaxX img - cropMinX img + 1 ∧
      (autoCrop img).h = cropMaxY img - cropMinY img + 1 ∧
      (∀ y x, (autoCrop img).pix y x =
        img.pix (y + cropMinY img) (x + cropMinX img)) ∧
      (∃ x, x < (autoCrop img).w ∧
        1 < grayPix ((autoCrop img).pix 0 x)) ∧
      (∃ x, x < (autoCrop img).w ∧
        1 < grayPix ((autoCrop img).pix ((autoCrop img).h - 1) x)) ∧
      (∃ y, y < (autoCrop img).h ∧
        1 < grayPix ((autoCrop img).pix y 0)) ∧
      (∃ y, y < (autoCrop img).h ∧
        1 < grayPix ((autoCrop img).pix y ((autoCrop img).w - 1)))) := by
  constructor
  · intro h
    simp [autoCrop, h]
  · intro h
    cases hc : cropPts img with
    | nil => rw [hc] at h; simp at h
    | cons p ps =>
      have hminY : cropMinY img = listMin p.1 (ps.map Prod.fst) := by
        simp only [cropMinY, hc]
      have hmaxY : cropMaxY img = listMax p.1 (ps.map Prod.fst) := by
        simp only [cropMaxY, hc]
      have hminX : cropMinX img = listMin p.2 (ps.map Prod.snd) := by
        simp only [cropMinX, hc]
      have hmaxX : cropMaxX img = listMax p.2 (ps.map Prod.snd) := by
        simp only [cropMaxX, hc]
      have hac : autoCrop img = Image.mk
          (cropMaxX img - cropMinX img + 1) (cropMaxY img - cropMinY img + 1)
          (fun y x => img.pix (y + cropMinY img) (x + cropMinX img)) := by
        simp only [autoCrop, h, Bool.false_eq_true, if_false]
      obtain ⟨qT, hqT, hqTy⟩ := exists_proj_eq_listMin Prod.fst p ps
      obtain ⟨qB, hqB, hqBy⟩ := exists_proj_eq_listMax Prod.fst p ps
      obtain ⟨qL, hqL, hqLx⟩ := exists_proj_eq_listMin Prod.snd p ps
      obtain ⟨qR, hqR, hqRx⟩ := exists_proj_eq_listMax Prod.snd p ps
      have hmaskT : cropMask img qT.1 qT.2 = true :=
        ((mem_cropPts img qT).mp (by rw [hc]; exact hqT)).2.2
      have hmaskB : cropMask img qB.1 qB.2 = true :=
        ((mem_cropPts img qB).mp (by rw [hc]; exact hqB)).2.2
      have hmaskL : cropMask img qL.1 qL.2 = true :=
        ((mem_cropPts img qL).mp (by rw [hc]; exact hqL)).2.2
      have hmaskR : cropMask img qR.1 qR.2 = true :=
        ((mem_cropPts img qR).mp (by rw [hc]; exact hqR)).2.2
      refine ⟨by rw [hac], by rw [hac], fun y x => by rw [hac], ?_, ?_, ?_, ?_⟩
      · -- top border row
        have h1 : cropMinX img ≤ qT.2 := by
          rw [hminX]; exact listMin_proj_le Prod.snd p ps qT hqT
        have h2 : qT.2 ≤ cropMaxX img := by
          rw [hmaxX]; exact listMax_proj_ge Prod.snd p ps qT hqT
        rw [hac]
        dsimp only
        refine ⟨qT.2 - cropMinX img, by omega, ?_⟩
        have e1 : 0 + cropMinY img = qT.1 := by
          rw [Nat.zero_add, hminY, hqTy]
        have e2 : qT.2 - cropMinX img + cropMinX img = qT.2 :=
          Nat.sub_add_cancel h1
        rw [e1, e2]
        exact of_decide_eq_true hmaskT
      · -- bottom border row
        have h1 : cropMinX img ≤ qB.2 := by
          rw [hminX]; exact listMin_proj_le Prod.snd p ps qB hqB
        have h2 : qB.2 ≤ cropMaxX img := by
          rw [hmaxX]; exact listMax_proj_ge Prod.snd p ps qB hqB
        have h3 : cropMinY img ≤ qB.1 := by
          rw [hminY]; exact listMin_proj_le Prod.fst p ps qB hqB
        have h4 : cropMaxY img = qB.1 := hmaxY.trans hqBy.symm
        rw [hac]
        dsimp only
        refine ⟨qB.2 - cropMinX img, by omega, ?_⟩
        have e1 : cropMaxY img - cropMinY img + 1 - 1 + cropMinY img = qB.1 := by
          rw [h4]; omega
        have e2 : qB.2 - cropMinX img + cropMinX img = qB.2 :=
          Nat.sub_add_cancel h1
        rw [e1, e2]
        exact of_decide_eq_true hmaskB
      · -- left border column
        have h1 : cropMinY img ≤ qL.1 := by
          rw [hminY]; exact listMin_proj_le Prod.fst p ps qL hqL
        have h2 : qL.1 ≤ cropMaxY img := by
          rw [hmaxY]; exact listMax_proj_ge Prod.fst p ps qL hqL
        rw [hac]
        dsimp only
        refine ⟨qL.1 - cropMinY img, by omega, ?_⟩
        have e1 : qL.1 - cropMinY img + cropMinY img = qL.1 :=
          Nat.sub_add_cancel h1
        have e2 : 0 + cropMinX img = qL.2 := by
          rw [Nat.zero_add, hminX, hqLx]
        rw [e1, e2]
        exact of_decide_eq_true hmaskL
      · -- right border column
        have h1 : cropMinY img ≤ qR.1 := by
          rw [hminY]; exact listMin_proj_le Prod.fst p ps qR hqR
        have h2 : qR.1 ≤ cropMaxY img := by
          rw [hmaxY]; exact listMax_proj_ge Prod.fst p ps qR hqR
        have h3 : cropMinX img ≤ qR.2 := by
          rw [hminX]; exact listMin_proj_le Prod.snd p ps qR hqR
        have h4 : cropMaxX img = qR.2 := hmaxX.trans hqRx.symm
        rw [hac]
        dsimp only
        refine ⟨qR.1 - cropMinY img, by omega, ?_⟩
        have e1 : qR.1 - cropMinY img + cropMinY img = qR.1 :=
          Nat.sub_add_cancel h1
        have e2 : cropMaxX img - cropMinX img + 1 - 1 + cropMinX img = qR.2 := by
          rw [h4]; omega
        rw [e1, e2]
        exact of_decide_eq_true hmaskR

/-- Witness for the amended claim C6, on the concrete 2x1 canvas. -/
theorem autoCrop_threshold_bbox_witness :
    (cropPts exPano).isEmpty = false ∧
    ((autoCrop exPano).w = cropMaxX exPano - cropMinX exPano + 1 ∧
     (autoCrop exPano).h = cropMaxY exPano - cropMinY exPano + 1 ∧
     (∀ y x, (autoCrop exPano).pix y x =
       exPano.pix (y + cropMinY exPano) (x + cropMinX exPano)) ∧
     (∃ x, x < (autoCrop exPano).w ∧
       1 < grayPix ((autoCrop exPano).pix 0 x)) ∧
     (∃ x, x < (autoCrop exPano).w ∧
       1 < grayPix ((autoCrop exPano).pix ((autoCrop exPano).h - 1) x)) ∧
     (∃ y, y < (autoCrop exPano).h ∧
       1 < grayPix ((autoCrop exPano).pix y 0)) ∧
     (∃ y, y < (autoCrop exPano).h ∧
       1 < grayPix ((autoCrop exPano).pix y ((autoCrop exPano).w - 1)))) :=
  ⟨by decide, (autoCrop_threshold_bbox exPano).2 (by decide)⟩

end VC
